import Mathlib

/-!
Shallow embedding of the memory-store engine of the repository
(`src/memory_store.py`, class `MemoryStore`), together with theorems that
settle the frozen claims about it.

Modelling conventions:
* The SQLite database state is a `Store`: the three tables (`memories`,
  `concepts`, `memory_concepts`) as lists of rows, plus a fresh-identifier
  counter `nextId` that stands in for `uuid.uuid4()` (each call yields a
  previously unused identifier, so ids are modelled as naturals drawn from
  a monotone supply).
* SQL `REAL` columns (`importance`, `weight`) are modelled as `Rat`.
* Timestamps (`created_at`, `last_accessed`) are modelled as `Nat`; the
  source stores `datetime.isoformat()` strings, whose lexicographic order
  agrees with chronological order, so `ORDER BY created_at` is order on
  `Nat`.  Each mutating operation takes the current clock value `now`.
* `sqlite3.connect` is never issued `PRAGMA foreign_keys = ON`, so the
  `ON DELETE CASCADE` clauses declared in `_initialize_database` are not
  enforced at runtime; deletion therefore touches only the rows the
  executed `DELETE` statements name.
* A retrieval call that makes SQLite fail to prepare its statement is an
  `Except.error` carrying the SQLite message (the source logs, rolls back
  and re-raises).
-/

namespace MemoryStore

/-- A row of the `memories` table (`_initialize_database`). -/
structure Memory where
  id : Nat
  user_id : String
  content : String
  source_message : Option String
  conversation_id : Option String
  importance : Rat
  created_at : Nat
  last_accessed : Option Nat
  access_count : Nat
  metadata : Option String
deriving DecidableEq

/-- A row of the `concepts` table: `id TEXT PRIMARY KEY, concept TEXT NOT NULL, UNIQUE(concept)`. -/
structure Concept where
  id : Nat
  concept : String
deriving DecidableEq

/-- A row of the `memory_concepts` link table. -/
structure MemoryConcept where
  memory_id : Nat
  concept_id : Nat
  weight : Rat
deriving DecidableEq

/-- The database state plus the fresh-id supply standing in for `uuid.uuid4()`. -/
structure Store where
  memories : List Memory
  concepts : List Concept
  memory_concepts : List MemoryConcept
  nextId : Nat
deriving DecidableEq

/-- The freshly initialized database. -/
def emptyStore : Store := ⟨[], [], [], 0⟩

/-- Python's `str.split()` with no argument: split on runs of whitespace,
dropping empty pieces.  `cur` accumulates the current word reversed. -/
def splitWordsAux : List Char → List Char → List (List Char)
  | [], cur => if cur.isEmpty then [] else [cur.reverse]
  | c :: rest, cur =>
      if c.isWhitespace then
        if cur.isEmpty then splitWordsAux rest []
        else cur.reverse :: splitWordsAux rest []
      else splitWordsAux rest (c :: cur)

def pyWords (s : String) : List String :=
  (splitWordsAux s.data []).map (fun l => String.mk l)

/-- `str.lower()` restricted to the ASCII range, as `Char.toLower` is. -/
def lowerStr (w : String) : String := String.mk (w.data.map Char.toLower)

def dedupFirstAux (seen : List String) : List String → List String
  | [] => []
  | x :: xs =>
      if seen.contains x then dedupFirstAux seen xs
      else x :: dedupFirstAux (x :: seen) xs

def dedupFirst (l : List String) : List String := dedupFirstAux [] l

/-- `MemoryStore._extract_concepts`: lowercase, split on whitespace, keep words
longer than 3 characters, deduplicate (`set(words)` in the source; the set's
iteration order is unspecified there, modelled here as first-occurrence order),
weight 1.0 each. -/
def _extract_concepts (content : String) : List (String × Rat) :=
  let words := ((pyWords content).filter (fun w => decide (3 < w.length))).map lowerStr
  (dedupFirst words).map (fun w => (w, 1))

/-- `MemoryStore._get_or_create_concept`: look up a concept row by exact text;
if present return its id, otherwise insert a fresh row. -/
def _get_or_create_concept (st : Store) (concept : String) : Nat × Store :=
  match st.concepts.find? (fun c => c.concept == concept) with
  | some c => (c.id, st)
  | none =>
      let cid := st.nextId
      (cid, { st with
                concepts := st.concepts ++ [⟨cid, concept⟩],
                nextId := st.nextId + 1 })

/-- The concept-linking loop inside `MemoryStore.store_memory`: for each
extracted `(concept, weight)` pair resolve the concept id and insert a
`memory_concepts` row. -/
def insertConceptLinks (memory_id : Nat) (st : Store) : List (String × Rat) → Store
  | [] => st
  | (c, w) :: rest =>
      let r := _get_or_create_concept st c
      insertConceptLinks memory_id
        { r.2 with memory_concepts := r.2.memory_concepts ++ [⟨memory_id, r.1, w⟩] } rest

/-- `MemoryStore.store_memory`: generate a fresh id, default the timestamp to
now, insert the memory row with the importance argument written as supplied
(the source performs no clamping on this path), then link the extracted
concepts.  Returns the new id and the post state. -/
def store_memory (st : Store) (user_id content : String)
    (source_message conversation_id : Option String) (timestamp : Option Nat)
    (metadata : Option String) (importance : Rat) (now : Nat) : Nat × Store :=
  let memory_id := st.nextId
  let ts := timestamp.getD now
  let row : Memory :=
    ⟨memory_id, user_id, content, source_message, conversation_id,
     importance, ts, none, 0, metadata⟩
  let st1 : Store := { st with
    memories := st.memories ++ [row],
    nextId := st.nextId + 1 }
  (memory_id, insertConceptLinks memory_id st1 (_extract_concepts content))

/-- `MemoryStore._update_memory_access`:
`UPDATE memories SET last_accessed = now, access_count = access_count + 1 WHERE id = ?`. -/
def _update_memory_access (st : Store) (memory_id : Nat) (now : Nat) : Store :=
  { st with memories := st.memories.map (fun m =>
      if m.id == memory_id
      then { m with last_accessed := some now, access_count := m.access_count + 1 }
      else m) }

/-- A row of the result set built by `MemoryStore.retrieve_memories`'s SELECT
clause (the columns listed there, plus the two aggregates). -/
structure RetRow where
  id : Nat
  content : String
  source_message : Option String
  conversation_id : Option String
  importance : Rat
  created_at : Nat
  metadata : Option String
  concept_matches : Nat
  relevance_score : Option Rat
deriving DecidableEq

/-- A value bound into a `?` placeholder by the Python sqlite3 driver:
strings bind as TEXT, floats as REAL, ints as INTEGER. -/
inductive SqlVal where
  | text : String → SqlVal
  | real : Rat → SqlVal
  | int : Int → SqlVal
deriving DecidableEq

def digitChar (n : Nat) : Char := Char.ofNat (48 + n)

def natDigitsAux : Nat → Nat → List Char
  | 0, _ => []
  | fuel + 1, n => if n = 0 then [] else natDigitsAux fuel (n / 10) ++ [digitChar (n % 10)]

def natToText (n : Nat) : String :=
  if n = 0 then "0" else String.mk (natDigitsAux (n + 1) n)

/-- Decimal digits of `n/d` (for `n < d`), up to `fuel` places.  Python
floats are dyadic rationals, whose decimal expansions terminate well inside
the fuel; the cutoff models SQLite's bounded significant digits. -/
def fracDigitsAux : Nat → Nat → Nat → List Char
  | 0, _, _ => []
  | _ + 1, 0, _ => []
  | fuel + 1, n, d => digitChar (n * 10 / d) :: fracDigitsAux fuel (n * 10 % d) d

/-- SQLite's text rendering of a REAL value (what applying TEXT affinity to
a REAL produces): integer-valued reals render with a trailing `.0`, others
with their decimal expansion. -/
def ratToSqlText (x : Rat) : String :=
  let a := x.num.natAbs
  let frac := fracDigitsAux 64 (a % x.den) x.den
  (if x.num < 0 then "-" else "") ++ natToText (a / x.den)
    ++ "." ++ (if frac.isEmpty then "0" else String.mk frac)

/-- TEXT affinity applied to a bound value. -/
def sqlTextOf : SqlVal → String
  | SqlVal.text s => s
  | SqlVal.real x => ratToSqlText x
  | SqlVal.int n => (if n < 0 then "-" else "") ++ natToText n.natAbs

def digitsVal (l : List Char) : Nat :=
  l.foldl (fun a c => a * 10 + (c.toNat - 48)) 0

/-- SQLite's NUMERIC-affinity conversion of a TEXT value: the text converts
to a number only when it is entirely a decimal numeral (optional sign,
digits, optional fractional part); otherwise it keeps TEXT storage class.
(Exponent forms and surrounding whitespace never occur in this development
and are not modelled.) -/
def parseDecimal (s : String) : Option Rat :=
  let go : List Char → Bool → Option Rat := fun cs neg =>
    let ip := cs.takeWhile Char.isDigit
    match cs.dropWhile Char.isDigit with
    | [] =>
        if ip.isEmpty then none
        else some (mkRat ((if neg then -1 else 1) * Int.ofNat (digitsVal ip)) 1)
    | '.' :: r =>
        let fp := r.takeWhile Char.isDigit
        if (r.dropWhile Char.isDigit).isEmpty && !(ip.isEmpty && fp.isEmpty) then
          some (mkRat ((if neg then -1 else 1)
                  * Int.ofNat (digitsVal ip * 10 ^ fp.length + digitsVal fp))
                (10 ^ fp.length))
        else none
    | _ => none
  match s.data with
  | '-' :: cs => go cs true
  | '+' :: cs => go cs false
  | cs => go cs false

/-- `column = value` for a TEXT-affinity column (`user_id`,
`conversation_id`): TEXT affinity is applied to the bound operand, so a
numeric value is compared through its text rendering. -/
def sqlEqText (s : String) (v : SqlVal) : Bool := s == sqlTextOf v

/-- The same comparison against a nullable TEXT column: SQL `NULL = x` is
never true. -/
def sqlEqOptText (o : Option String) (v : SqlVal) : Bool :=
  match o with
  | none => false
  | some s => sqlEqText s v

/-- `m.importance >= value` for the REAL-affinity importance column: NUMERIC
affinity is applied to a TEXT operand; a text that is not a numeral keeps
TEXT storage class, and every REAL sorts before every TEXT, so `>=` is then
false. -/
def sqlGeImportance (imp : Rat) (v : SqlVal) : Bool :=
  match v with
  | SqlVal.real x => decide (x ≤ imp)
  | SqlVal.int n => decide (mkRat n 1 ≤ imp)
  | SqlVal.text s =>
      match parseDecimal s with
      | some x => decide (x ≤ imp)
      | none => false

/-- All `memory_concepts` rows joined to a memory by
`LEFT JOIN memory_concepts mc ON m.id = mc.memory_id`.  The second join,
`LEFT JOIN concepts c ON mc.concept_id = c.id AND c.concept IN (...)`, has its
concept-set restriction inside its own ON clause, so it can only null out the
`c` columns; it never removes an `mc` row from the join, and no `c` column is
selected.  The aggregates therefore range over all of the memory's links,
whatever concept list the caller supplied. -/
def memLinks (st : Store) (memory_id : Nat) : List MemoryConcept :=
  st.memory_concepts.filter (fun l => l.memory_id == memory_id)

/-- Rational addition written through `mkRat` (the library's `Rat.add` is
`@[irreducible]`, which blocks concrete evaluation); `ratAdd_eq_add` below
shows it is ordinary addition. -/
def ratAdd (a b : Rat) : Rat := mkRat (a.num * b.den + b.num * a.den) (a.den * b.den)

def ratSum (l : List Rat) : Rat := l.foldl ratAdd 0

/-- One grouped result row: `COUNT(mc.concept_id)` counts the non-null joined
links (0 when the LEFT JOIN produced only the single all-null row), and
`SUM(mc.weight)` is NULL in that same case. -/
def rowOf (st : Store) (m : Memory) : RetRow :=
  let links := memLinks st m.id
  ⟨m.id, m.content, m.source_message, m.conversation_id, m.importance,
   m.created_at, m.metadata, links.length,
   if links.isEmpty then none else some (ratSum (links.map MemoryConcept.weight))⟩

/-- SQLite `ORDER BY x DESC` on a nullable column puts NULL last: NULL is
smaller than every value. -/
def optRatLe (a b : Option Rat) : Bool :=
  match a, b with
  | none, _ => true
  | some _, none => false
  | some x, some y => decide (x ≤ y)

/-- `ORDER BY concept_matches DESC, relevance_score DESC, m.importance DESC`:
`a` may be placed before `b`. -/
def retBefore (a b : RetRow) : Bool :=
  if a.concept_matches = b.concept_matches then
    if a.relevance_score = b.relevance_score then decide (b.importance ≤ a.importance)
    else optRatLe b.relevance_score a.relevance_score
  else decide (b.concept_matches < a.concept_matches)

/-- Stable insertion sort; SQLite leaves the relative order of ties
unspecified, so any order consistent with the comparator is a faithful model
and we fix the stable one for determinism. -/
def insertBy (le : α → α → Bool) (x : α) : List α → List α
  | [] => [x]
  | y :: ys => if le y x then y :: insertBy le x ys else x :: y :: ys

def sortBy (le : α → α → Bool) : List α → List α
  | [] => []
  | x :: xs => insertBy le x (sortBy le xs)

/-- `MemoryStore.retrieve_memories`.  The SELECT clause is fixed and names the
alias `mc` in both aggregates.

No-concepts branch: the join clause is empty, so the prepared statement
references `mc.concept_id` with no such table in scope and SQLite refuses
it; the except-handler logs, rolls back and re-raises.

Concept branch: the query text is assembled as
`{select} {join} {where} GROUP BY m.id {order} LIMIT ?`, so its `?` markers
appear in this order: the `len(concepts)` markers of `c.concept IN (...)`
(inside the join clause), then `m.user_id = ?`, the optional
`m.conversation_id = ?` (present only when `conversation_id` is truthy),
`m.importance >= ?`, and finally `LIMIT ?`.  The parameter list, however, is
built as `[user_id, conversation_id?, min_importance, *concepts, limit]`:
the concept values are appended after the WHERE values although their
markers come first.  sqlite3 binds markers positionally, so with
`k = len(concepts)` the IN list receives the first `k` parameters,
`m.user_id` is compared against parameter `k` (the REAL `min_importance`
when `k = 1` and no conversation filter), `m.conversation_id` against
parameter `k+1`, `m.importance` against the last concept string, and only
`LIMIT` — the final marker and the final parameter — binds as intended.
Marker and parameter counts always agree, so the statement executes.

The `c.concept IN (...)` condition sits in the second LEFT JOIN's ON
clause, where it can only null out the unselected `c` columns (see
`memLinks`), so the values bound into the IN list cannot affect the result
set.  The filtered rows are grouped by memory id, ordered, capped by the
limit (negative means no limit in SQLite), and each returned row gets
`_update_memory_access` applied before the single commit. -/
def retrieve_memories (st : Store) (user_id query : String)
    (concepts : Option (List String)) (limit : Int) (min_importance : Rat)
    (conversation_id : Option String) (now : Nat) :
    Except String (List RetRow × Store) :=
  let cs := concepts.getD []
  if cs.isEmpty then
    Except.error "no such column: mc.concept_id"
  else
    let conv_active : Bool :=
      match conversation_id with
      | none => false
      | some c => !(c == "")
    let params : List SqlVal :=
      [SqlVal.text user_id]
        ++ (match conversation_id with
            | none => []
            | some c => if c == "" then [] else [SqlVal.text c])
        ++ [SqlVal.real min_importance]
        ++ cs.map SqlVal.text
        ++ [SqlVal.int limit]
    let afterIn := params.drop cs.length
    let userVal := afterIn.getD 0 (SqlVal.int 0)
    let convVal := afterIn.getD 1 (SqlVal.int 0)
    let impVal := afterIn.getD (if conv_active then 2 else 1) (SqlVal.int 0)
    let rowFilter : Memory → Bool := fun m =>
      sqlEqText m.user_id userVal
        && (!conv_active || sqlEqOptText m.conversation_id convVal)
        && sqlGeImportance m.importance impVal
    let sorted := sortBy retBefore ((st.memories.filter rowFilter).map (rowOf st))
    let limited := if limit < 0 then sorted else sorted.take limit.toNat
    Except.ok (limited, limited.foldl (fun s r => _update_memory_access s r.id now) st)

/-- SQLite `LIKE`, the matcher behind `content LIKE ?`: `%` matches any
sequence, `_` matches any single character, and letter comparison is
ASCII-case-insensitive (the default, `case_sensitive_like` off; no `ESCAPE`
clause is supplied, so `%`/`_` arriving in the bound pattern stay live). -/
def likeMatch : List Char → List Char → Bool
  | [], s => s.isEmpty
  | '%' :: ps, s => s.tails.any (fun t => likeMatch ps t)
  | '_' :: ps, s =>
      match s with
      | [] => false
      | _ :: s' => likeMatch ps s'
  | p :: ps, s =>
      match s with
      | [] => false
      | c :: s' => p.toLower == c.toLower && likeMatch ps s'

/-- `MemoryStore.delete_memories_by_content`: select the ids of the user's
memories whose content matches `LIKE '%' || content_pattern || '%'`, then
`DELETE FROM memories WHERE id IN (...)`.  Only the `memories` table is
touched: the connection never enables `PRAGMA foreign_keys`, so the declared
`ON DELETE CASCADE` is inert and `memory_concepts` rows stay behind. -/
def delete_memories_by_content (st : Store) (user_id : String)
    (content_pattern : String) : List Nat × Store :=
  let pat := '%' :: content_pattern.data ++ ['%']
  let memory_ids := (st.memories.filter
      (fun m => m.user_id == user_id && likeMatch pat m.content.data)).map Memory.id
  if memory_ids.isEmpty then (memory_ids, st)
  else
    (memory_ids,
     { st with memories := st.memories.filter (fun m => !(memory_ids.contains m.id)) })

/-- The body of `MemoryStore.get_memory_by_id` after the fetch, with the fetch
outcome made explicit: a backend error is logged and swallowed (`return None`,
nothing committed); a missing row yields `None`; a found row is snapshotted,
then `_update_memory_access` runs and commits, and the pre-update snapshot is
returned. -/
def get_memory_by_id_run (fetched : Except String (Option Memory))
    (memory_id : Nat) (st : Store) (now : Nat) : Option Memory × Store :=
  match fetched with
  | Except.error _ => (none, st)
  | Except.ok none => (none, st)
  | Except.ok (some m) => (some m, _update_memory_access st memory_id now)

/-- `MemoryStore.get_memory_by_id` when the backend does not fail: the fetch is
`SELECT ... FROM memories WHERE id = ?`. -/
def get_memory_by_id (st : Store) (memory_id : Nat) (now : Nat) :
    Option Memory × Store :=
  get_memory_by_id_run (Except.ok (st.memories.find? (fun m => m.id == memory_id)))
    memory_id st now

/-- `MemoryStore.update_memory_importance`: clamp the score with
`max(0.0, min(1.0, importance))`, `UPDATE memories SET importance = ? WHERE
id = ?`, and report `cursor.rowcount > 0`. -/
def update_memory_importance (st : Store) (memory_id : Nat) (importance : Rat) :
    Bool × Store :=
  let clamped := max 0 (min 1 importance)
  (st.memories.any (fun m => m.id == memory_id),
   { st with memories := st.memories.map (fun m =>
       if m.id == memory_id then { m with importance := clamped } else m) })

/-- Modelled from the spec: `prune_old_memories` is called by the repository's
test suite (`tests/test_memory_store.py`) but no such method exists under
`src/`; §4.5 of the spec defines it as deleting every memory whose
`created_at` is older than `now - retentionDays` AND whose `importance` is
strictly below `importanceThreshold` (both conditions required), returning the
count of deletions, with zero a valid non-error result.  Time is in days. -/
def prune_old_memories (st : Store) (retention_days : Nat)
    (importance_threshold : Rat) (now : Nat) : Nat × Store :=
  let doomed := fun (m : Memory) =>
    m.created_at < now - retention_days && decide (m.importance < importance_threshold)
  ((st.memories.filter doomed).length,
   { st with memories := st.memories.filter (fun m => !(doomed m)) })

/-- Modelled from the spec's words ("contains `pattern` as a case-sensitive
substring"): literal, case-sensitive substring containment, used only to
compare the implementation's LIKE-based matching against the specified one. -/
def specSubstring (needle hay : String) : Bool :=
  hay.data.tails.any (fun t => needle.data.isPrefixOf t)

/-- The `UNIQUE(concept)` constraint of the `concepts` table. -/
def UniqueTexts (l : List Concept) : Prop :=
  l.Pairwise (fun a b => a.concept ≠ b.concept)

/-- Every row of `post` descends from a row of `pre` with the same id and no
larger access count: the shape in which "no operation decreases
`access_count`" holds for the purely updating operations. -/
def accessFrom (pre post : Store) : Prop :=
  ∀ m' ∈ post.memories, ∃ m ∈ pre.memories,
    m.id = m'.id ∧ m.access_count ≤ m'.access_count

/-- The spec's §8 concept-ranking example: three memories of user `u` with
concept links tennis/sports, color, basketball/sports, all weights 1. -/
def exampleConceptStore : Store :=
  ⟨[⟨0, "u", "I like tennis", none, none, mkRat 8 10, 100, none, 0, none⟩,
    ⟨1, "u", "I like color blue", none, none, mkRat 6 10, 101, none, 0, none⟩,
    ⟨2, "u", "I like basketball", none, none, mkRat 7 10, 102, none, 0, none⟩],
   [⟨10, "tennis"⟩, ⟨11, "sports"⟩, ⟨12, "color"⟩, ⟨13, "basketball"⟩],
   [⟨0, 10, 1⟩, ⟨0, 11, 1⟩, ⟨1, 12, 1⟩, ⟨2, 13, 1⟩, ⟨2, 11, 1⟩],
   20⟩

/-- A store holding the single memory `"I like pizza"` for user `u`. -/
def examplePizzaStore : Store :=
  ⟨[⟨0, "u", "I like pizza", none, none, mkRat 1 2, 0, none, 0, none⟩], [], [], 5⟩

/-- A store holding one memory with one concept link. -/
def exampleLinkStore : Store :=
  ⟨[⟨0, "u", "cats", none, none, mkRat 1 2, 10, none, 0, none⟩],
   [⟨1, "cats"⟩], [⟨0, 1, 1⟩], 2⟩

/-- The spec's §8 pruning example, with time in days: at `now = 100`, memory 0
is 60 days old with importance 0.3, memory 1 is 60 days old with importance
0.9, memory 2 is 5 days old with importance 0.1. -/
def examplePruneStore : Store :=
  ⟨[⟨0, "u", "old unimportant", none, none, mkRat 3 10, 40, none, 0, none⟩,
    ⟨1, "u", "old important", none, none, mkRat 9 10, 40, none, 0, none⟩,
    ⟨2, "u", "recent unimportant", none, none, mkRat 1 10, 95, none, 0, none⟩],
   [], [], 10⟩

/-! ## Supporting lemmas -/

/-- `ratAdd` is ordinary rational addition. -/
theorem ratAdd_eq_add (a b : Rat) : ratAdd a b = a + b := by
  have ha : (a.den : Rat) ≠ 0 := by exact_mod_cast a.den_nz
  have hb : (b.den : Rat) ≠ 0 := by exact_mod_cast b.den_nz
  rw [ratAdd, Rat.mkRat_eq_div]
  conv_rhs => rw [← Rat.num_div_den a, ← Rat.num_div_den b, div_add_div _ _ ha hb]
  push_cast
  ring_nf

/-- Concept resolution never touches the `memories` table. -/
theorem goc_memories (st : Store) (c : String) :
    (_get_or_create_concept st c).2.memories = st.memories := by
  unfold _get_or_create_concept
  cases st.concepts.find? (fun x => x.concept == c) <;> rfl

/-- Concept resolution never shrinks the id supply. -/
theorem goc_nextId_le (st : Store) (c : String) :
    st.nextId ≤ (_get_or_create_concept st c).2.nextId := by
  unfold _get_or_create_concept
  cases st.concepts.find? (fun x => x.concept == c) <;> simp

/-- The concept-linking loop never touches the `memories` table. -/
theorem icl_memories (memory_id : Nat) (l : List (String × Rat)) (st : Store) :
    (insertConceptLinks memory_id st l).memories = st.memories := by
  induction l generalizing st with
  | nil => rfl
  | cons hd tl ih =>
      obtain ⟨c, w⟩ := hd
      simp only [insertConceptLinks]
      rw [ih]
      exact goc_memories st c

/-- The concept-linking loop never shrinks the id supply. -/
theorem icl_nextId_le (memory_id : Nat) (l : List (String × Rat)) (st : Store) :
    st.nextId ≤ (insertConceptLinks memory_id st l).nextId := by
  induction l generalizing st with
  | nil => exact Nat.le_refl _
  | cons hd tl ih =>
      obtain ⟨c, w⟩ := hd
      simp only [insertConceptLinks]
      refine Nat.le_trans (goc_nextId_le st c) ?_
      exact ih { (_get_or_create_concept st c).2 with
        memory_concepts := (_get_or_create_concept st c).2.memory_concepts
          ++ [⟨memory_id, (_get_or_create_concept st c).1, w⟩] }

/-! ## Claim C1 -/

/-- C1: the claim states that after `storeMemory(userId, content)`, a
`retrieve_memories` call with no concepts and a query word from the content
returns that memory, substring-filtered and ordered by importance then
recency.  The code cannot do this: its fixed SELECT clause references the
alias `mc`, which the no-concepts branch never joins, so SQLite rejects the
statement and every substring-mode retrieval raises instead of returning
results.  First conjunct: substring mode errors on every input; second: it
errors in particular on the claim's own scenario, right after a store. -/
theorem c1_substring_mode_always_errors :
    (∀ (st : Store) (user_id query : String) (limit : Int) (min_importance : Rat)
       (conversation_id : Option String) (now : Nat),
       retrieve_memories st user_id query none limit min_importance conversation_id now
         = Except.error "no such column: mc.concept_id") ∧
    retrieve_memories
        ((store_memory emptyStore "u" "hello world" none none none none (mkRat 1 2) 0).2)
        "u" "hello" none 5 0 none 1
      = Except.error "no such column: mc.concept_id" := by
  exact ⟨fun st uid q lim mi conv now => rfl, rfl⟩

/-! ## Claim C2 -/

/-- C2: the claim states that concept-ranked retrieval returns only the
memories with at least one link in the supplied concept set, with
`concept_matches` counting the distinct matching concepts and
`relevance_score` summing the matching links' weights.  The code does
neither.  Its parameters are misbound (see `retrieve_memories`): the
executed statement compares `m.user_id` with `min_importance` and
`m.importance` with the last concept string, so on the spec's own §8
example (`user_id = "u"`, `concepts = ["sports"]`, `min_importance = 0.0`)
no row satisfies `m.user_id = 0.0` and the call returns the empty list
instead of the tennis and basketball memories — first conjunct.  And even
when the caller's values happen to satisfy the transposed comparisons, the
concept set still does not restrict the result: with
`concepts = ["u", "0"]` the misbound filter passes for every memory of user
`"u"`, and all three memories return — the color-blue memory included, with
`concept_matches`/`relevance_score` aggregating all of each memory's links
rather than the matching ones — second conjunct. -/
theorem c2_concept_mode_misbinds_and_ignores_filter :
    (retrieve_memories exampleConceptStore "u" "query" (some ["sports"]) 5 0 none 200
       = Except.ok ([], exampleConceptStore)) ∧
    ((retrieve_memories exampleConceptStore "u" "query" (some ["u", "0"]) 5 0 none 200).toOption.map
        (fun p => p.1.map (fun r => (r.id, r.concept_matches, r.relevance_score))))
      = some [(0, 2, some 2), (2, 2, some 2), (1, 1, some 1)] := by
  exact ⟨rfl, by decide⟩

/-! ## Claim C3 -/

/-- C3: the claim states that deleting a memory via
`delete_memories_by_content` also deletes its `memory_concepts` links.  It
does not: the DDL declares `ON DELETE CASCADE`, but no connection ever runs
`PRAGMA foreign_keys = ON`, so SQLite leaves the declared foreign keys
unenforced and the DELETE touches only `memories`.  Storing "tennis fun"
creates memory 0 linked to concept 1; deleting it leaves the link row
`(0, 1)` behind, referencing a memory that no longer exists. -/
theorem c3_delete_orphans_concept_links :
    ((delete_memories_by_content
        ((store_memory emptyStore "u" "tennis fun" none none none none (mkRat 1 2) 0).2)
        "u" "tennis").1 = [0]) ∧
    ((delete_memories_by_content
        ((store_memory emptyStore "u" "tennis fun" none none none none (mkRat 1 2) 0).2)
        "u" "tennis").2.memories = []) ∧
    ((delete_memories_by_content
        ((store_memory emptyStore "u" "tennis fun" none none none none (mkRat 1 2) 0).2)
        "u" "tennis").2.memory_concepts = [⟨0, 1, 1⟩]) := by
  exact ⟨rfl, rfl, rfl⟩

/-! ## Claim C4 -/

/-- C4 counterexample: `store_memory` writes the importance argument as
supplied; storing with importance 5 persists a row whose importance is 5,
outside `[0, 1]`, so the claim that both write paths clamp is false. -/
theorem c4_store_memory_does_not_clamp :
    ((store_memory emptyStore "u" "hi" none none none none (mkRat 5 1) 0).2).memories.map
        Memory.importance = [5] ∧ ¬((5 : Rat) ≤ 1) := by
  exact ⟨rfl, by norm_num⟩

/-- C4 as amended: only `update_memory_importance` clamps its argument to
`[0.0, 1.0]` before writing; `store_memory` persists the supplied importance
unmodified, so stored rows can hold out-of-range importance values.  First
conjunct: after an importance update every row is either untouched or carries
an in-range importance.  Second conjunct: the row inserted by `store_memory`
carries exactly the argument. -/
theorem c4_importance_clamped_only_on_update (st : Store) (memory_id : Nat) (imp : Rat) :
    (∀ m' ∈ ((update_memory_importance st memory_id imp).2).memories,
        m' ∈ st.memories ∨ (0 ≤ m'.importance ∧ m'.importance ≤ 1)) ∧
    (∀ (user_id content : String) (sm cv : Option String) (ts : Option Nat)
       (md : Option String) (now : Nat),
       ∃ m ∈ ((store_memory st user_id content sm cv ts md imp now).2).memories,
         m.id = (store_memory st user_id content sm cv ts md imp now).1
           ∧ m.importance = imp) := by
  constructor
  · intro m' hm'
    simp only [update_memory_importance, List.mem_map] at hm'
    obtain ⟨m, hm, rfl⟩ := hm'
    by_cases h : m.id == memory_id
    · simp only [h, if_pos]
      right
      refine ⟨le_max_left 0 _, max_le (by norm_num) (min_le_left 1 imp)⟩
    · simp only [h, if_neg, Bool.false_eq_true, not_false_iff, ite_false]
      exact Or.inl hm
  · intro user_id content sm cv ts md now
    refine ⟨⟨st.nextId, user_id, content, sm, cv, imp, ts.getD now, none, 0, md⟩, ?_, rfl, rfl⟩
    simp only [store_memory, icl_memories]
    exact List.mem_append_right _ (List.mem_singleton.mpr rfl)

/-! ## Claim C5 -/

/-- C5: `prune_old_memories(retentionDays, importanceThreshold)` deletes
exactly the memories older than `now - retentionDays` whose importance is
strictly below the threshold (both conditions required), and returns the
count of deletions, zero being a valid non-error result.  The operation is
absent from the source (`src/`) and is modelled from the spec, so this
confirms the claim against that model: the count is the number of matching
rows, a memory survives iff it fails the conjunction, and on the spec's §8
example only the old-and-unimportant memory is pruned, while a prune with
nothing to delete returns 0. -/
theorem c5_prune_old_memories_correct (st : Store) (retention_days : Nat)
    (threshold : Rat) (now : Nat) :
    ((prune_old_memories st retention_days threshold now).1
        = (st.memories.filter (fun m =>
            m.created_at < now - retention_days && decide (m.importance < threshold))).length) ∧
    (∀ m : Memory,
       m ∈ (prune_old_memories st retention_days threshold now).2.memories
         ↔ m ∈ st.memories
             ∧ ¬(m.created_at < now - retention_days ∧ m.importance < threshold)) ∧
    ((prune_old_memories examplePruneStore 30 (mkRat 5 10) 100).1 = 1
       ∧ (prune_old_memories examplePruneStore 30 (mkRat 5 10) 100).2.memories.map
           Memory.id = [1, 2]
       ∧ (prune_old_memories examplePruneStore 30 (mkRat 5 10) 40).1 = 0) := by
  refine ⟨rfl, ?_, by decide, by decide, by decide⟩
  intro m
  rw [prune_old_memories]
  simp only [List.mem_filter, Bool.not_eq_true', Bool.and_eq_false_iff,
    decide_eq_false_iff_not, not_and_or]

/-! ## Claim C6 -/

/-- C6 counterexample: the claim states that deletion matches the pattern as
a case-sensitive literal substring.  The code binds the raw pattern into
`LIKE '%' || pattern || '%'`, which in SQLite compares ASCII letters
case-insensitively and keeps `%`/`_` live as wildcards.  Pattern `"LIKE"` is
not a case-sensitive substring of `"I like pizza"`, and `"p_zza"` is not a
literal substring of it either, yet both delete the memory. -/
theorem c6_delete_matches_like_not_substring :
    ((delete_memories_by_content examplePizzaStore "u" "LIKE").1 = [0]
       ∧ specSubstring "LIKE" "I like pizza" = false) ∧
    ((delete_memories_by_content examplePizzaStore "u" "p_zza").1 = [0]
       ∧ specSubstring "p_zza" "I like pizza" = false) := by
  exact ⟨⟨by decide, by decide⟩, ⟨by decide, by decide⟩⟩

/-- C6 as amended: `delete_memories_by_content(userId, pattern)` deletes
exactly the memories of `userId` whose content matches
`'%' ++ pattern ++ '%'` under SQLite LIKE semantics (ASCII letters compared
case-insensitively, `%` and `_` in the pattern acting as wildcards), returns
the list of deleted memory ids, and returns an empty list, leaving the store
unchanged, when nothing matches. -/
theorem c6_delete_like_semantics (st : Store) (user_id content_pattern : String) :
    ((delete_memories_by_content st user_id content_pattern).1
        = (st.memories.filter (fun m => m.user_id == user_id
            && likeMatch ('%' :: content_pattern.data ++ ['%']) m.content.data)).map
            Memory.id) ∧
    (∀ m : Memory,
       m ∈ (delete_memories_by_content st user_id content_pattern).2.memories
         ↔ m ∈ st.memories
             ∧ m.id ∉ (delete_memories_by_content st user_id content_pattern).1) ∧
    ((delete_memories_by_content st user_id content_pattern).1 = []
       → (delete_memories_by_content st user_id content_pattern).2 = st) := by
  have hfst : (delete_memories_by_content st user_id content_pattern).1
      = (st.memories.filter (fun m => m.user_id == user_id
          && likeMatch ('%' :: content_pattern.data ++ ['%']) m.content.data)).map
          Memory.id := by
    rw [delete_memories_by_content]
    split <;> rfl
  refine ⟨hfst, ?_, ?_⟩
  · intro m
    rw [hfst, delete_memories_by_content]
    split
    · rename_i hcond
      rw [List.isEmpty_iff] at hcond
      rw [hcond]
      simp
    · simp [List.mem_filter]
  · intro h
    rw [hfst] at h
    rw [delete_memories_by_content]
    split
    · rfl
    · rename_i hne
      rw [h] at hne
      simp at hne

/-! ## Claim C7 -/

theorem accessFrom_refl (st : Store) : accessFrom st st :=
  fun m hm => ⟨m, hm, rfl, Nat.le_refl _⟩

theorem accessFrom_trans {a b c : Store} (h1 : accessFrom a b) (h2 : accessFrom b c) :
    accessFrom a c := by
  intro m'' hm''
  obtain ⟨m', hm', hid, hle⟩ := h2 m'' hm''
  obtain ⟨m, hm, hid2, hle2⟩ := h1 m' hm'
  exact ⟨m, hm, hid2.trans hid, hle2.trans hle⟩

theorem upd_accessFrom (st : Store) (memory_id now : Nat) :
    accessFrom st (_update_memory_access st memory_id now) := by
  intro m' hm'
  simp only [_update_memory_access, List.mem_map] at hm'
  obtain ⟨m, hm, rfl⟩ := hm'
  by_cases h : m.id == memory_id
  · exact ⟨m, hm, by simp [h], by simp [h]⟩
  · exact ⟨m, hm, by simp [h], by simp [h]⟩

theorem foldl_upd_accessFrom (rows : List RetRow) (st : Store) (now : Nat) :
    accessFrom st (rows.foldl (fun s r => _update_memory_access s r.id now) st) := by
  induction rows generalizing st with
  | nil => exact accessFrom_refl st
  | cons r rest ih =>
      exact accessFrom_trans (upd_accessFrom st r.id now) (ih _)

/-- Inversion for a successful concept-mode retrieval: the post state is the
fold of access updates over the returned rows. -/
theorem retrieve_ok_inv (st : Store) (user_id query : String) (cs : List String)
    (limit : Int) (min_importance : Rat) (conversation_id : Option String) (now : Nat)
    (rows : List RetRow) (st' : Store)
    (h : retrieve_memories st user_id query (some cs) limit min_importance
        conversation_id now = Except.ok (rows, st')) :
    st' = rows.foldl (fun s r => _update_memory_access s r.id now) st := by
  rcases cs with _ | ⟨c, cs'⟩
  · rw [retrieve_memories.eq_def] at h
    simp at h
  · rw [retrieve_memories.eq_def] at h
    simp only [Option.getD_some, List.isEmpty_cons, if_false, Bool.false_eq_true,
      ite_false, Except.ok.injEq, Prod.mk.injEq] at h
    obtain ⟨h1, h2⟩ := h
    subst h1
    exact h2.symm

/-- Folding the per-row access update over a duplicate-free id list is the
same as bumping every row whose id occurs in it exactly once. -/
theorem foldl_upd_eq_map (ids : List Nat) (st : Store) (now : Nat) (hnd : ids.Nodup) :
    (ids.foldl (fun s i => _update_memory_access s i now) st).memories
      = st.memories.map (fun m =>
          if m.id ∈ ids
          then { m with last_accessed := some now, access_count := m.access_count + 1 }
          else m) := by
  induction ids generalizing st with
  | nil => simp
  | cons i rest ih =>
      obtain ⟨hni, hnd'⟩ := List.nodup_cons.mp hnd
      rw [List.foldl_cons, ih _ hnd']
      simp only [_update_memory_access, List.map_map]
      refine List.map_congr_left ?_
      intro m _
      by_cases h : m.id = i
      · simp [Function.comp, h, hni]
      · simp [Function.comp, h]

/-- C7: retrieval's access side effect lands on exactly the returned rows —
after a successful concept-mode retrieval every returned memory has its
`access_count` incremented by exactly one and its `last_accessed` set to the
retrieval time, and every other row is untouched — and no operation of the
store ever decreases an existing row's `access_count` (rows of the post state
always descend from rows of the pre state with the same id and a no-smaller
count; `store_memory` adds only fresh rows with count 0). -/
theorem c7_retrieval_access_side_effect :
    (∀ (st : Store) (user_id query : String) (cs : List String) (limit : Int)
       (min_importance : Rat) (conversation_id : Option String) (now : Nat)
       (rows : List RetRow) (st' : Store),
       retrieve_memories st user_id query (some cs) limit min_importance
           conversation_id now = Except.ok (rows, st') →
       (rows.map RetRow.id).Nodup →
       st'.memories = st.memories.map (fun m =>
         if m.id ∈ rows.map RetRow.id
         then { m with last_accessed := some now, access_count := m.access_count + 1 }
         else m)) ∧
    (∀ (st : Store) (user_id query : String) (cs : List String) (limit : Int)
       (min_importance : Rat) (conversation_id : Option String) (now : Nat)
       (rows : List RetRow) (st' : Store),
       retrieve_memories st user_id query (some cs) limit min_importance
           conversation_id now = Except.ok (rows, st') →
       accessFrom st st') ∧
    (∀ (st : Store) (memory_id : Nat) (imp : Rat),
       accessFrom st (update_memory_importance st memory_id imp).2) ∧
    (∀ (st : Store) (user_id content_pattern : String),
       accessFrom st (delete_memories_by_content st user_id content_pattern).2) ∧
    (∀ (st : Store) (retention_days : Nat) (threshold : Rat) (now : Nat),
       accessFrom st (prune_old_memories st retention_days threshold now).2) ∧
    (∀ (st : Store) (memory_id now : Nat),
       accessFrom st (get_memory_by_id st memory_id now).2) ∧
    (∀ (st : Store) (user_id content : String) (sm cv : Option String)
       (ts : Option Nat) (md : Option String) (imp : Rat) (now : Nat),
       ∀ m' ∈ (store_memory st user_id content sm cv ts md imp now).2.memories,
         m' ∈ st.memories ∨ m'.access_count = 0) := by
  refine ⟨?_, ?_, ?_, ?_, ?_, ?_, ?_⟩
  · intro st uid q cs lim mi conv now rows st' h hnd
    rw [retrieve_ok_inv st uid q cs lim mi conv now rows st' h]
    rw [← List.foldl_map RetRow.id (fun s i => _update_memory_access s i now) rows st]
    exact foldl_upd_eq_map _ st now hnd
  · intro st uid q cs lim mi conv now rows st' h
    rw [retrieve_ok_inv st uid q cs lim mi conv now rows st' h]
    exact foldl_upd_accessFrom rows st now
  · intro st memory_id imp m' hm'
    simp only [update_memory_importance, List.mem_map] at hm'
    obtain ⟨m, hm, rfl⟩ := hm'
    by_cases h : m.id == memory_id
    · exact ⟨m, hm, by simp [h], by simp [h]⟩
    · exact ⟨m, hm, by simp [h], by simp [h]⟩
  · intro st uid pat m' hm'
    rw [delete_memories_by_content] at hm'
    revert hm'
    split
    · exact fun hm' => ⟨m', hm', rfl, Nat.le_refl _⟩
    · exact fun hm' => ⟨m', (List.mem_filter.mp hm').1, rfl, Nat.le_refl _⟩
  · intro st r thr now m' hm'
    exact ⟨m', (List.mem_filter.mp hm').1, rfl, Nat.le_refl _⟩
  · intro st memory_id now
    rw [get_memory_by_id]
    cases hf : st.memories.find? (fun m => m.id == memory_id) with
    | none => exact accessFrom_refl st
    | some m => exact upd_accessFrom st memory_id now
  · intro st uid content sm cv ts md imp now m' hm'
    simp only [store_memory, icl_memories, List.mem_append, List.mem_singleton] at hm'
    rcases hm' with hm' | hm'
    · exact Or.inl hm'
    · right
      rw [hm']

/-- C7 witness: on a one-memory store with one concept link, a concept-mode
retrieval that genuinely succeeds through the misbound filter — `m.user_id`
is compared against the first concept string `"u"` and `m.importance`
against the last one, `"0.1"` — returns that row, and the post state bumps
exactly it. -/
theorem c7_retrieval_access_side_effect_witness :
    ({ memories := [⟨0, "u", "cats", none, none, mkRat 1 2, 10, some 77, 1, none⟩],
       concepts := [⟨1, "cats"⟩], memory_concepts := [⟨0, 1, 1⟩], nextId := 2 } : Store).memories
      = exampleLinkStore.memories.map (fun m =>
          if m.id ∈ ([⟨0, "cats", none, none, mkRat 1 2, 10, none, 1, some 1⟩] : List RetRow).map RetRow.id
          then { m with last_accessed := some 77, access_count := m.access_count + 1 }
          else m) :=
  c7_retrieval_access_side_effect.1 exampleLinkStore "zzz" "q" ["u", "0.1"] 5 0 none 77
    [⟨0, "cats", none, none, mkRat 1 2, 10, none, 1, some 1⟩]
    { memories := [⟨0, "u", "cats", none, none, mkRat 1 2, 10, some 77, 1, none⟩],
      concepts := [⟨1, "cats"⟩], memory_concepts := [⟨0, 1, 1⟩], nextId := 2 }
    rfl (by decide)

/-! ## Claim C9 -/

/-- C9: `update_memory_importance` reports `True` precisely when a row with
the given id exists (rowcount > 0); a missing id yields `False` with no
exception (the function is total in the model), and every row of the post
state agrees with a pre-state row of the same id on every field other than
`importance`, rows with a different id being wholly unchanged. -/
theorem c9_update_memory_importance_result (st : Store) (memory_id : Nat) (imp : Rat) :
    ((update_memory_importance st memory_id imp).1 = true
       ↔ ∃ m ∈ st.memories, m.id = memory_id) ∧
    (∀ m' ∈ (update_memory_importance st memory_id imp).2.memories,
       ∃ m ∈ st.memories,
         m.id = m'.id ∧ m.user_id = m'.user_id ∧ m.content = m'.content
           ∧ m.source_message = m'.source_message
           ∧ m.conversation_id = m'.conversation_id
           ∧ m.created_at = m'.created_at ∧ m.last_accessed = m'.last_accessed
           ∧ m.access_count = m'.access_count ∧ m.metadata = m'.metadata
           ∧ (m.id ≠ memory_id → m' = m)) := by
  constructor
  · rw [update_memory_importance]
    simp [List.any_eq_true]
  · intro m' hm'
    simp only [update_memory_importance, List.mem_map] at hm'
    obtain ⟨m, hm, rfl⟩ := hm'
    by_cases h : m.id == memory_id
    · refine ⟨m, hm, by simp [h], by simp [h], by simp [h], by simp [h], by simp [h],
        by simp [h], by simp [h], by simp [h], by simp [h], fun hne => ?_⟩
      exact absurd (beq_iff_eq.mp (by simpa using h)) hne
    · exact ⟨m, hm, by simp [h], by simp [h], by simp [h], by simp [h], by simp [h],
        by simp [h], by simp [h], by simp [h], by simp [h], fun _ => by simp [h]⟩

/-- C9 witness: updating the present id 0 succeeds; the updated row keeps
every field but importance; updating the absent id 99 returns `False`. -/
theorem c9_update_memory_importance_result_witness :
    ((update_memory_importance examplePizzaStore 0 (mkRat 5 1)).1 = true
       ↔ ∃ m ∈ examplePizzaStore.memories, m.id = 0) ∧
    (∃ m ∈ examplePizzaStore.memories,
       m.id = (0 : Nat) ∧ m.user_id = "u" ∧ m.content = "I like pizza"
         ∧ m.source_message = none ∧ m.conversation_id = none
         ∧ m.created_at = 0 ∧ m.last_accessed = none
         ∧ m.access_count = 0 ∧ m.metadata = none
         ∧ (m.id ≠ 0 → (⟨0, "u", "I like pizza", none, none, 1, 0, none, 0, none⟩ : Memory) = m)) ∧
    ((update_memory_importance examplePizzaStore 99 (mkRat 5 1)).1 = true
       ↔ ∃ m ∈ examplePizzaStore.memories, m.id = 99) :=
  ⟨(c9_update_memory_importance_result examplePizzaStore 0 (mkRat 5 1)).1,
   (c9_update_memory_importance_result examplePizzaStore 0 (mkRat 5 1)).2
     ⟨0, "u", "I like pizza", none, none, 1, 0, none, 0, none⟩ (by decide),
   (c9_update_memory_importance_result examplePizzaStore 99 (mkRat 5 1)).1⟩

/-! ## Claim C10 -/

/-- C10: `get_memory_by_id` is read-with-side-effect and error-swallowing:
a missing id yields `(none, unchanged store)`; a found row is returned as
fetched (the pre-update snapshot) while the committed state sets
`last_accessed` and increments that row's `access_count` by one; and a
backend error is swallowed into `none` with nothing committed. -/
theorem c10_get_memory_by_id_behavior :
    (∀ (st : Store) (memory_id now : Nat),
       st.memories.find? (fun m => m.id == memory_id) = none →
       get_memory_by_id st memory_id now = (none, st)) ∧
    (∀ (st : Store) (memory_id now : Nat) (m : Memory),
       st.memories.find? (fun m => m.id == memory_id) = some m →
       (get_memory_by_id st memory_id now).1 = some m
         ∧ (get_memory_by_id st memory_id now).2.memories = st.memories.map (fun x =>
             if x.id == memory_id
             then { x with last_accessed := some now, access_count := x.access_count + 1 }
             else x)) ∧
    (∀ (e : String) (memory_id : Nat) (st : Store) (now : Nat),
       get_memory_by_id_run (Except.error e) memory_id st now = (none, st)) := by
  refine ⟨?_, ?_, fun e memory_id st now => rfl⟩
  · intro st memory_id now h
    rw [get_memory_by_id, h]
    rfl
  · intro st memory_id now m h
    rw [get_memory_by_id, h]
    exact ⟨rfl, rfl⟩

/-- C10 witness: fetching the present id 0 returns its pre-update snapshot
and bumps the stored row; fetching the absent id 99 returns `none`; an
injected backend error returns `none` with the store unchanged. -/
theorem c10_get_memory_by_id_behavior_witness :
    get_memory_by_id examplePizzaStore 99 7 = (none, examplePizzaStore) ∧
    ((get_memory_by_id examplePizzaStore 0 7).1
        = some ⟨0, "u", "I like pizza", none, none, mkRat 1 2, 0, none, 0, none⟩
      ∧ (get_memory_by_id examplePizzaStore 0 7).2.memories
          = examplePizzaStore.memories.map (fun x =>
              if x.id == 0
              then { x with last_accessed := some 7, access_count := x.access_count + 1 }
              else x)) ∧
    get_memory_by_id_run (Except.error "disk I/O error") 0 examplePizzaStore 7
      = (none, examplePizzaStore) :=
  ⟨c10_get_memory_by_id_behavior.1 examplePizzaStore 99 7 rfl,
   c10_get_memory_by_id_behavior.2.1 examplePizzaStore 0 7
     ⟨0, "u", "I like pizza", none, none, mkRat 1 2, 0, none, 0, none⟩ rfl,
   c10_get_memory_by_id_behavior.2.2 "disk I/O error" 0 examplePizzaStore 7⟩

/-- C4 witness: instantiating the amended statement on the one-pizza store
with importance 5: the updated row carries the clamped, in-range value 1, and
the stored row carries exactly 5. -/
theorem c4_importance_clamped_only_on_update_witness :
    ((⟨0, "u", "I like pizza", none, none, 1, 0, none, 0, none⟩ : Memory)
        ∈ examplePizzaStore.memories
      ∨ (0 ≤ ((⟨0, "u", "I like pizza", none, none, 1, 0, none, 0, none⟩ : Memory)).importance
          ∧ ((⟨0, "u", "I like pizza", none, none, 1, 0, none, 0, none⟩ : Memory)).importance ≤ 1)) ∧
    (∃ m ∈ ((store_memory examplePizzaStore "u" "hi" none none none none (mkRat 5 1) 0).2).memories,
       m.id = (store_memory examplePizzaStore "u" "hi" none none none none (mkRat 5 1) 0).1
         ∧ m.importance = mkRat 5 1) :=
  ⟨(c4_importance_clamped_only_on_update examplePizzaStore 0 (mkRat 5 1)).1
     ⟨0, "u", "I like pizza", none, none, 1, 0, none, 0, none⟩ (by decide),
   (c4_importance_clamped_only_on_update examplePizzaStore 0 (mkRat 5 1)).2
     "u" "hi" none none none none 0⟩

/-- C6 witness: a pattern matching nothing returns the empty id list and
leaves the store unchanged. -/
theorem c6_delete_like_semantics_witness :
    (delete_memories_by_content examplePizzaStore "u" "zebra").2 = examplePizzaStore :=
  (c6_delete_like_semantics examplePizzaStore "u" "zebra").2.2 (by decide)

/-! ## Claim C8 -/

theorem find?_append_some {α : Type} (p : α → Bool) (l1 l2 : List α) (a : α)
    (h : l1.find? p = some a) : (l1 ++ l2).find? p = some a := by
  induction l1 with
  | nil => simp at h
  | cons x xs ih =>
      rw [List.cons_append]
      by_cases hx : p x
      · rw [List.find?_cons_of_pos _ hx] at h ⊢
        exact h
      · rw [List.find?_cons_of_neg _ hx] at h ⊢
        exact ih h

theorem find?_append_none {α : Type} (p : α → Bool) (l1 l2 : List α)
    (h : l1.find? p = none) : (l1 ++ l2).find? p = l2.find? p := by
  induction l1 with
  | nil => simp
  | cons x xs ih =>
      rw [List.cons_append]
      by_cases hx : p x
      · rw [List.find?_cons_of_pos _ hx] at h
        cases h
      · rw [List.find?_cons_of_neg _ hx] at h ⊢
        exact ih h

/-- Resolving a concept makes it findable under exactly the returned id. -/
theorem goc_find_self (st : Store) (c : String) :
    (_get_or_create_concept st c).2.concepts.find? (fun y => y.concept == c)
      = some ⟨(_get_or_create_concept st c).1, c⟩ := by
  unfold _get_or_create_concept
  split
  · rename_i cc hf
    obtain ⟨cid, ct⟩ := cc
    have hp := List.find?_some hf
    have hct : ct = c := by simpa using hp
    subst hct
    exact hf
  · rename_i hf
    rw [find?_append_none _ _ _ hf]
    simp [List.find?]

/-- Resolving one concept preserves the resolution of every already-resolved
text. -/
theorem goc_find_mono (st : Store) (c t : String) (x : Concept)
    (h : st.concepts.find? (fun y => y.concept == t) = some x) :
    (_get_or_create_concept st c).2.concepts.find? (fun y => y.concept == t) = some x := by
  unfold _get_or_create_concept
  split
  · exact h
  · exact find?_append_some _ _ _ _ h

/-- Concept resolution preserves the `UNIQUE(concept)` invariant. -/
theorem goc_unique (st : Store) (c : String) (hu : UniqueTexts st.concepts) :
    UniqueTexts (_get_or_create_concept st c).2.concepts := by
  unfold _get_or_create_concept
  split
  · exact hu
  · rename_i hf
    rw [UniqueTexts, List.pairwise_append]
    refine ⟨hu, List.pairwise_singleton _ _, ?_⟩
    intro a ha b hb
    rw [List.mem_singleton] at hb
    subst hb
    have := List.find?_eq_none.mp hf a ha
    simpa using this

theorem goc_mc (st : Store) (c : String) :
    (_get_or_create_concept st c).2.memory_concepts = st.memory_concepts := by
  unfold _get_or_create_concept
  split <;> rfl

theorem icl_find_mono (memory_id : Nat) (l : List (String × Rat)) (st : Store)
    (t : String) (x : Concept)
    (h : st.concepts.find? (fun y => y.concept == t) = some x) :
    (insertConceptLinks memory_id st l).concepts.find? (fun y => y.concept == t)
      = some x := by
  induction l generalizing st with
  | nil => exact h
  | cons hd tl ih =>
      obtain ⟨c, w⟩ := hd
      simp only [insertConceptLinks]
      exact ih _ (goc_find_mono st c t x h)

theorem icl_unique (memory_id : Nat) (l : List (String × Rat)) (st : Store)
    (hu : UniqueTexts st.concepts) :
    UniqueTexts (insertConceptLinks memory_id st l).concepts := by
  induction l generalizing st with
  | nil => exact hu
  | cons hd tl ih =>
      obtain ⟨c, w⟩ := hd
      simp only [insertConceptLinks]
      exact ih _ (goc_unique st c hu)

theorem icl_mc_mono (memory_id : Nat) (l : List (String × Rat)) (st : Store)
    (x : MemoryConcept) (h : x ∈ st.memory_concepts) :
    x ∈ (insertConceptLinks memory_id st l).memory_concepts := by
  induction l generalizing st with
  | nil => exact h
  | cons hd tl ih =>
      obtain ⟨c, w⟩ := hd
      simp only [insertConceptLinks]
      refine ih _ (List.mem_append_left _ ?_)
      rw [goc_mc]
      exact h

/-- Every `(text, weight)` pair processed by the linking loop ends up resolved
to some concept id, with the corresponding link row present. -/
theorem icl_link_exists (memory_id : Nat) (l : List (String × Rat)) (st : Store)
    (t : String) (w : Rat) (h : (t, w) ∈ l) :
    ∃ cid, (insertConceptLinks memory_id st l).concepts.find? (fun y => y.concept == t)
        = some ⟨cid, t⟩
      ∧ (⟨memory_id, cid, w⟩ : MemoryConcept)
          ∈ (insertConceptLinks memory_id st l).memory_concepts := by
  revert h
  induction l generalizing st with
  | nil =>
      intro h
      cases h
  | cons hd tl ih =>
      intro h
      obtain ⟨c, w'⟩ := hd
      rw [List.mem_cons] at h
      rcases h with h | h
      · cases h
        simp only [insertConceptLinks]
        refine ⟨(_get_or_create_concept st t).1, ?_, ?_⟩
        · exact icl_find_mono _ _ _ _ _ (goc_find_self st t)
        · exact icl_mc_mono _ _ _ _
            (List.mem_append_right _ (List.mem_singleton.mpr rfl))
      · simp only [insertConceptLinks]
        exact ih _ h

/-- Under the uniqueness invariant, a found concept row is the only row with
its text. -/
theorem unique_find_filter (l : List Concept) (t : String) (x : Concept)
    (hu : UniqueTexts l) (h : l.find? (fun c => c.concept == t) = some x) :
    l.filter (fun c => c.concept == t) = [x] := by
  induction l with
  | nil => simp at h
  | cons hd tl ih =>
      rw [UniqueTexts, List.pairwise_cons] at hu
      by_cases hp : hd.concept == t
      · have hfind : List.find? (fun c => c.concept == t) (hd :: tl) = some hd := by
          simp [List.find?, hp]
        rw [hfind] at h
        injection h with h
        subst h
        have hfilter : List.filter (fun c => c.concept == t) (hd :: tl)
            = hd :: List.filter (fun c => c.concept == t) tl := by
          simp [List.filter, hp]
        rw [hfilter]
        have hnil : List.filter (fun c => c.concept == t) tl = [] := by
          rw [List.filter_eq_nil_iff]
          intro a ha
          have hne := hu.1 a ha
          have hht : hd.concept = t := beq_iff_eq.mp hp
          intro hat
          exact hne (hht.trans (beq_iff_eq.mp hat).symm)
        rw [hnil]
      · have hfind : List.find? (fun c => c.concept == t) (hd :: tl)
            = List.find? (fun c => c.concept == t) tl := by
          simp [List.find?, hp]
        rw [hfind] at h
        have hfilter : List.filter (fun c => c.concept == t) (hd :: tl)
            = List.filter (fun c => c.concept == t) tl := by
          simp [List.filter, hp]
        rw [hfilter]
        exact ih hu.2 h

/-- `store_memory` strictly advances the fresh-id supply. -/
theorem store_nextId_lt (st : Store) (u c : String) (sm cv : Option String)
    (ts : Option Nat) (md : Option String) (i : Rat) (t : Nat) :
    st.nextId < (store_memory st u c sm cv ts md i t).2.nextId := by
  refine Nat.lt_of_lt_of_le (Nat.lt_succ_self st.nextId) ?_
  exact icl_nextId_le st.nextId (_extract_concepts c)
    { st with
      memories := st.memories ++ [⟨st.nextId, u, c, sm, cv, i, ts.getD t, none, 0, md⟩],
      nextId := st.nextId + 1 }

/-- C8: concept resolution is idempotent.  Starting from any store satisfying
the `UNIQUE(concept)` invariant, storing two memories whose extracted
concepts both contain the text `w` leaves exactly one row for `w` in the
concepts table, and both freshly stored memories hold a link to that single
concept id; the two memory ids are distinct. -/
theorem c8_concept_resolution_idempotent
    (st : Store) (u1 u2 c1 c2 w : String)
    (sm1 cv1 md1 sm2 cv2 md2 : Option String) (ts1 ts2 : Option Nat)
    (i1 i2 : Rat) (t1 t2 : Nat)
    (hu : UniqueTexts st.concepts)
    (h1 : (w, 1) ∈ _extract_concepts c1)
    (h2 : (w, 1) ∈ _extract_concepts c2) :
    ∃ cid,
      ((store_memory (store_memory st u1 c1 sm1 cv1 ts1 md1 i1 t1).2
           u2 c2 sm2 cv2 ts2 md2 i2 t2).2.concepts.filter
          (fun c => c.concept == w)) = [⟨cid, w⟩]
      ∧ (⟨(store_memory st u1 c1 sm1 cv1 ts1 md1 i1 t1).1, cid, 1⟩ : MemoryConcept)
          ∈ (store_memory (store_memory st u1 c1 sm1 cv1 ts1 md1 i1 t1).2
              u2 c2 sm2 cv2 ts2 md2 i2 t2).2.memory_concepts
      ∧ (⟨(store_memory (store_memory st u1 c1 sm1 cv1 ts1 md1 i1 t1).2
              u2 c2 sm2 cv2 ts2 md2 i2 t2).1, cid, 1⟩ : MemoryConcept)
          ∈ (store_memory (store_memory st u1 c1 sm1 cv1 ts1 md1 i1 t1).2
              u2 c2 sm2 cv2 ts2 md2 i2 t2).2.memory_concepts
      ∧ (store_memory st u1 c1 sm1 cv1 ts1 md1 i1 t1).1
          ≠ (store_memory (store_memory st u1 c1 sm1 cv1 ts1 md1 i1 t1).2
              u2 c2 sm2 cv2 ts2 md2 i2 t2).1 := by
  obtain ⟨cid, hfind1, hlink1⟩ :=
    icl_link_exists st.nextId (_extract_concepts c1)
      { st with
        memories := st.memories ++ [⟨st.nextId, u1, c1, sm1, cv1, i1, ts1.getD t1, none, 0, md1⟩],
        nextId := st.nextId + 1 }
      w 1 h1
  obtain ⟨cid2, hfind2, hlink2⟩ :=
    icl_link_exists (store_memory st u1 c1 sm1 cv1 ts1 md1 i1 t1).2.nextId
      (_extract_concepts c2)
      { (store_memory st u1 c1 sm1 cv1 ts1 md1 i1 t1).2 with
        memories := (store_memory st u1 c1 sm1 cv1 ts1 md1 i1 t1).2.memories
          ++ [⟨(store_memory st u1 c1 sm1 cv1 ts1 md1 i1 t1).2.nextId, u2, c2, sm2, cv2,
               i2, ts2.getD t2, none, 0, md2⟩],
        nextId := (store_memory st u1 c1 sm1 cv1 ts1 md1 i1 t1).2.nextId + 1 }
      w 1 h2
  have hfind1' :
      (store_memory (store_memory st u1 c1 sm1 cv1 ts1 md1 i1 t1).2
            u2 c2 sm2 cv2 ts2 md2 i2 t2).2.concepts.find? (fun y => y.concept == w)
        = some ⟨cid, w⟩ :=
    icl_find_mono _ _ _ _ _ hfind1
  have hcid : cid2 = cid := by
    have := hfind2.symm.trans hfind1'
    simpa using this
  have hu2 :
      UniqueTexts (store_memory (store_memory st u1 c1 sm1 cv1 ts1 md1 i1 t1).2
          u2 c2 sm2 cv2 ts2 md2 i2 t2).2.concepts :=
    icl_unique _ _ _ (icl_unique _ _ _ hu)
  refine ⟨cid, unique_find_filter _ _ _ hu2 hfind1', ?_, ?_, ?_⟩
  · exact icl_mc_mono _ _ _ _ hlink1
  · rw [hcid] at hlink2
    exact hlink2
  · exact Nat.ne_of_lt (store_nextId_lt st u1 c1 sm1 cv1 ts1 md1 i1 t1)

/-- C8 witness: from the empty store, storing `"play tennis now"` and
`"watch tennis"` yields a single `"tennis"` concept row linked from both
memories. -/
theorem c8_concept_resolution_idempotent_witness :
    ∃ cid,
      ((store_memory (store_memory emptyStore "u" "play tennis now" none none none none
           (mkRat 1 2) 0).2 "v" "watch tennis" none none none none (mkRat 1 2) 1).2.concepts.filter
          (fun c => c.concept == "tennis")) = [⟨cid, "tennis"⟩]
      ∧ (⟨(store_memory emptyStore "u" "play tennis now" none none none none (mkRat 1 2) 0).1,
          cid, 1⟩ : MemoryConcept)
          ∈ (store_memory (store_memory emptyStore "u" "play tennis now" none none none none
              (mkRat 1 2) 0).2 "v" "watch tennis" none none none none (mkRat 1 2) 1).2.memory_concepts
      ∧ (⟨(store_memory (store_memory emptyStore "u" "play tennis now" none none none none
              (mkRat 1 2) 0).2 "v" "watch tennis" none none none none (mkRat 1 2) 1).1,
          cid, 1⟩ : MemoryConcept)
          ∈ (store_memory (store_memory emptyStore "u" "play tennis now" none none none none
              (mkRat 1 2) 0).2 "v" "watch tennis" none none none none (mkRat 1 2) 1).2.memory_concepts
      ∧ (store_memory emptyStore "u" "play tennis now" none none none none (mkRat 1 2) 0).1
          ≠ (store_memory (store_memory emptyStore "u" "play tennis now" none none none none
              (mkRat 1 2) 0).2 "v" "watch tennis" none none none none (mkRat 1 2) 1).1 :=
  c8_concept_resolution_idempotent emptyStore "u" "v" "play tennis now" "watch tennis"
    "tennis" none none none none none none none none (mkRat 1 2) (mkRat 1 2) 0 1
    List.Pairwise.nil (by decide) (by decide)

end MemoryStore
